import Mathlib

/-!
# DSA-streak-app: streak computation, verified

Shallow embedding of the streak logic of `src/components/Layout.tsx`
(`calculateStreaks`, and the streak-reconciliation step of `fetchData`)
and of the `hasLoggedToday` check of `src/components/Dashboard.tsx`.

Modelling conventions:
* A calendar date is an integer day number in the fixed reference timezone
  (the number of days since some epoch).  In `date-fns`, `differenceInDays`
  on two midnight-aligned dates is exactly the difference of their day
  numbers, so day arithmetic is plain `Int` subtraction.
* A well-formed date string (ISO timestamp) is a pair of its calendar day
  and its time-of-day; `format(parseISO d, "yyyy-MM-dd")` keeps only the
  day.
* `calculateStreaks` reads the clock (`startOfDay(new Date())`, line 52 of
  `Layout.tsx`).  The embedding makes this implicit input explicit as the
  `today` parameter.
-/

/-- A well-formed date string: its calendar day (in the reference timezone)
and its time-of-day part.  `format(parseISO d, "yyyy-MM-dd")` drops the
time-of-day, keeping `day`. -/
structure DateString where
  day : Int
  timeOfDay : Nat
deriving DecidableEq

/-- Normalization `format(parseISO d, "yyyy-MM-dd")`: a timestamp mapped to
its calendar day. -/
def toDay (d : DateString) : Int := d.day

/-- The record returned by `calculateStreaks`
(`{ currentStreak, longestStreak }`). -/
structure StreakState where
  currentStreak : Nat
  longestStreak : Nat
deriving DecidableEq

/-- JavaScript `new Set(...)` iteration order: keep the first occurrence of
each element, in insertion order.  `seen` holds the elements already kept. -/
def jsSetDedupAux (seen : List Int) : List Int → List Int
  | [] => []
  | a :: rest =>
      if a ∈ seen then jsSetDedupAux seen rest
      else a :: jsSetDedupAux (a :: seen) rest

/-- Model of `[...new Set(l)]`. -/
def jsSetDedup (l : List Int) : List Int := jsSetDedupAux [] l

/-- Step 1 of `calculateStreaks` (lines 23–27): map each date string to its
`yyyy-MM-dd` day, deduplicate via `new Set`, and sort ascending by time
value.  The deduplicated days are distinct, so any comparison sort yields
the unique ascending enumeration; the embedding uses insertion sort. -/
def sortedDays (submissionDates : List DateString) : List Int :=
  List.insertionSort (· ≤ ·) (jsSetDedup (submissionDates.map toDay))

/-- The longest-streak loop of lines 38–46: `prev` is `dates[i-1]`,
`longest` is `longestStreak` so far, `run` is `currentRun`; the final
`max` is line 47. -/
def longestAux (prev : Int) (longest run : Nat) : List Int → Nat
  | [] => max longest run
  | d :: rest =>
      if d - prev = 1 then longestAux d longest (run + 1) rest
      else longestAux d (max longest run) 1 rest

/-- The backward loop of lines 59–65, walking the dates that precede the
most recent one (most recent first): count while each gap is exactly one
day, stop at the first other gap. -/
def backRun (next : Int) : List Int → Nat
  | [] => 0
  | d :: rest => if next - d = 1 then 1 + backRun d rest else 0

/-- Steps 2–3 of `calculateStreaks` (lines 29–68) on the already
normalized, deduplicated, ascending list of days. -/
def streaksFromDates (today : Int) (dates : List Int) : StreakState :=
  match dates with
  | [] => { currentStreak := 0, longestStreak := 0 }
  | d :: rest =>
      let longestStreak := longestAux d 1 1 rest
      let currentStreak :=
        match (d :: rest).reverse with
        | [] => 0
        | last :: prevs =>
            -- line 56: differenceInDays(today, lastSubmissionDate) <= 1
            if today - last ≤ 1 then 1 + backRun last prevs else 0
      { currentStreak := currentStreak, longestStreak := longestStreak }

/-- The function `calculateStreaks` of `src/components/Layout.tsx` lines 17–69.
`today` is the value of `startOfDay(new Date())` at the moment of the
call. -/
def calculateStreaks (today : Int) (submissionDates : List DateString) :
    StreakState :=
  if submissionDates.isEmpty then { currentStreak := 0, longestStreak := 0 }
  else streaksFromDates today (sortedDays submissionDates)

/-! ## Spec-side definitions (for the refinement claims C1 and C2)

These follow the words of the specification, to be compared with the
definitions above, which follow the code. -/

/-- Spec, step 5: the backward walk over a list of unique days given in
descending order (most recent first): count consecutive-day runs, stopping
at the first gap that is not exactly one day. -/
def backwardWalk : List Int → Nat
  | [] => 0
  | [_] => 1
  | a :: b :: rest => if a - b = 1 then 1 + backwardWalk (b :: rest) else 1

/-- Spec: the length of the run of consecutive calendar days ending at the
most recent date of an ascending list of unique days (walking backward from
the last date). -/
def runEndingAtLast (u : List Int) : Nat := backwardWalk u.reverse

/-- Spec: split an ascending list of unique days into its maximal blocks of
consecutive days (adjacent dates exactly one day apart). -/
def runBlocks : List Int → List (List Int)
  | [] => []
  | a :: rest =>
      match runBlocks rest with
      | [] => [[a]]
      | [] :: blks => [[a]] ++ blks
      | (b :: blk) :: blks =>
          if b - a = 1 then (a :: b :: blk) :: blks
          else [a] :: (b :: blk) :: blks

/-- Spec: the longest streak is the maximum length of any run of
consecutive days, including the final run. -/
def specLongestStreak (u : List Int) : Nat :=
  ((runBlocks u).map List.length).foldr max 0

/-! ## Helper lemmas about the date pipeline -/

theorem mem_jsSetDedupAux (x : Int) :
    ∀ (l seen : List Int), x ∈ jsSetDedupAux seen l ↔ x ∈ l ∧ x ∉ seen := by
  intro l
  induction l with
  | nil => intro seen; simp [jsSetDedupAux]
  | cons a rest ih =>
      intro seen
      by_cases h : a ∈ seen
      · simp only [jsSetDedupAux, h, ite_true, ih seen, List.mem_cons]
        constructor
        · rintro ⟨hx, hs⟩
          exact ⟨Or.inr hx, hs⟩
        · rintro ⟨rfl | hx, hs⟩
          · exact absurd h hs
          · exact ⟨hx, hs⟩
      · simp only [jsSetDedupAux, h, ite_false, List.mem_cons, ih (a :: seen)]
        constructor
        · rintro (rfl | ⟨hx, hs⟩)
          · exact ⟨Or.inl rfl, h⟩
          · exact ⟨Or.inr hx, fun hseen => hs (Or.inr hseen)⟩
        · rintro ⟨rfl | hx, hs⟩
          · exact Or.inl rfl
          · by_cases hxa : x = a
            · exact Or.inl hxa
            · refine Or.inr ⟨hx, fun hmem => ?_⟩
              rcases hmem with h1 | h1
              · exact hxa h1
              · exact hs h1

theorem mem_jsSetDedup (x : Int) (l : List Int) : x ∈ jsSetDedup l ↔ x ∈ l := by
  simp [jsSetDedup, mem_jsSetDedupAux]

theorem nodup_jsSetDedupAux : ∀ (l seen : List Int), (jsSetDedupAux seen l).Nodup := by
  intro l
  induction l with
  | nil => intro seen; simp [jsSetDedupAux]
  | cons a rest ih =>
      intro seen
      by_cases h : a ∈ seen
      · simpa [jsSetDedupAux, h] using ih seen
      · simp only [jsSetDedupAux, h, ite_false, List.nodup_cons]
        refine ⟨fun hmem => ?_, ih (a :: seen)⟩
        have := (mem_jsSetDedupAux a rest (a :: seen)).1 hmem
        simp at this

theorem nodup_jsSetDedup (l : List Int) : (jsSetDedup l).Nodup :=
  nodup_jsSetDedupAux l []

theorem sortedDays_sorted (l : List DateString) :
    List.Sorted (fun a b : Int => a ≤ b) (sortedDays l) :=
  List.sorted_insertionSort _ _

theorem sortedDays_nodup (l : List DateString) : (sortedDays l).Nodup :=
  (List.perm_insertionSort _ _).nodup_iff.mpr (nodup_jsSetDedup _)

theorem mem_sortedDays (x : Int) (l : List DateString) :
    x ∈ sortedDays l ↔ x ∈ l.map toDay := by
  simp [sortedDays, mem_jsSetDedup]

theorem sortedDays_eq_of_mem_iff (l1 l2 : List DateString)
    (h : ∀ x, x ∈ l1.map toDay ↔ x ∈ l2.map toDay) : sortedDays l1 = sortedDays l2 :=
  List.eq_of_perm_of_sorted
    ((List.perm_ext_iff_of_nodup (sortedDays_nodup l1) (sortedDays_nodup l2)).2
      (fun x => by rw [mem_sortedDays, mem_sortedDays]; exact h x))
    (sortedDays_sorted l1) (sortedDays_sorted l2)

theorem sortedDays_eq_nil_iff (l : List DateString) : sortedDays l = [] ↔ l = [] := by
  constructor
  · intro h
    cases l with
    | nil => rfl
    | cons d t =>
        exfalso
        have hmem : toDay d ∈ sortedDays (d :: t) := by
          rw [mem_sortedDays]; simp
        rw [h] at hmem
        simp at hmem
  · intro h; subst h; rfl

theorem calculateStreaks_eq (today : Int) (l : List DateString) (h : l ≠ []) :
    calculateStreaks today l = streaksFromDates today (sortedDays l) := by
  have hie : l.isEmpty = false := by simp_all
  simp [calculateStreaks, hie]

theorem backwardWalk_cons :
    ∀ (l : List Int) (a : Int), backwardWalk (a :: l) = 1 + backRun a l := by
  intro l
  induction l with
  | nil => intro a; simp [backwardWalk, backRun]
  | cons b t ih =>
      intro a
      simp only [backwardWalk, backRun, ih b]
      by_cases h : a - b = 1 <;> simp [h]

/-! ## C8: empty input -/

/-- C8: on an empty input list, `calculateStreaks` returns
`{currentStreak: 0, longestStreak: 0}` (lines 18–20). -/
theorem claim_C8 (today : Int) :
    calculateStreaks today [] = { currentStreak := 0, longestStreak := 0 } := rfl

/-! ## C5: purity -/

/-- C5 counterexample: `calculateStreaks` is not a function of the input
list alone: it reads the clock at line 52 (`startOfDay(new Date())`).  Two
calls on the same one-element input list, made on day 0 and on day 5,
return different `StreakState`s (`{1, 1}` versus `{0, 1}`). -/
theorem claim_C5_counterexample :
    calculateStreaks 0 [{ day := 0, timeOfDay := 0 }] ≠
      calculateStreaks 5 [{ day := 0, timeOfDay := 0 }] := by decide

/-- C5 amended: `calculateStreaks` is deterministic given the input list
and the date read from the clock; the clock affects only `currentStreak`,
so `longestStreak` agrees between any two calls on the same input list. -/
theorem claim_C5_amended (t1 t2 : Int) (l : List DateString) :
    (calculateStreaks t1 l).longestStreak = (calculateStreaks t2 l).longestStreak := by
  by_cases h : l = []
  · subst h; rfl
  · rw [calculateStreaks_eq t1 l h, calculateStreaks_eq t2 l h]
    rcases hu : sortedDays l with _ | ⟨d, rest⟩ <;> rfl

/-! ## C1: the current streak -/

/-- C1: for a non-empty list of date strings, with `last` the most recent
unique calendar date: if `today - last` is 0 or 1 day, `currentStreak` is
the length of the run of consecutive days ending at `last` (the backward
walk of the spec); if `today - last` is more than 1 day, `currentStreak`
is 0. -/
theorem claim_C1 (today : Int) (l : List DateString) (last : Int)
    (hlast : (sortedDays l).getLast? = some last) :
    ((today - last = 0 ∨ today - last = 1) →
      (calculateStreaks today l).currentStreak = runEndingAtLast (sortedDays l)) ∧
    (1 < today - last → (calculateStreaks today l).currentStreak = 0) := by
  have hne : sortedDays l ≠ [] := by
    intro h0; rw [h0] at hlast; simp at hlast
  have hl : l ≠ [] := fun h0 => hne ((sortedDays_eq_nil_iff l).2 h0)
  rw [calculateStreaks_eq today l hl]
  obtain ⟨d, rest, hu⟩ := List.exists_cons_of_ne_nil hne
  rw [hu] at hlast ⊢
  cases hrev : (d :: rest).reverse with
  | nil => simp at hrev
  | cons last' prevs =>
      have hlast2 : some last' = some last := by
        rw [List.getLast?_eq_head?_reverse, hrev] at hlast
        simpa using hlast
      have hl2 : last' = last := by injection hlast2
      subst hl2
      constructor
      · intro hd
        have ht : today - last' ≤ 1 := by omega
        have hcur : (streaksFromDates today (d :: rest)).currentStreak =
            1 + backRun last' prevs := by
          simp [streaksFromDates, hrev, ht]
        rw [hcur, runEndingAtLast, hrev, backwardWalk_cons]
      · intro hd
        have ht : ¬ today - last' ≤ 1 := by omega
        simp [streaksFromDates, hrev, ht]

/-- Witness for C1 at the concrete input `[day 0, day 1]` with `today = 2`:
the streak is alive (`today - last = 1`), and the current streak equals the
run ending at the last date. -/
theorem claim_C1_witness :
    (sortedDays [{ day := 0, timeOfDay := 0 }, { day := 1, timeOfDay := 0 }]).getLast? =
        some 1 ∧
      (calculateStreaks 2 [{ day := 0, timeOfDay := 0 }, { day := 1, timeOfDay := 0 }]).currentStreak =
        runEndingAtLast
          (sortedDays [{ day := 0, timeOfDay := 0 }, { day := 1, timeOfDay := 0 }]) :=
  ⟨by decide, (claim_C1 2 _ 1 (by decide)).1 (Or.inr (by decide))⟩

/-! ## C9: future-dated entries -/

/-- C9: if the most recent unique calendar date lies strictly after
`today`, the aliveness test `differenceInDays(today, last) <= 1` at line
56 still passes (the difference is negative), so `currentStreak` is at
least 1. -/
theorem claim_C9 (today : Int) (l : List DateString) (last : Int)
    (hlast : (sortedDays l).getLast? = some last) (hfut : today < last) :
    1 ≤ (calculateStreaks today l).currentStreak := by
  have hne : sortedDays l ≠ [] := by
    intro h0; rw [h0] at hlast; simp at hlast
  have hl : l ≠ [] := fun h0 => hne ((sortedDays_eq_nil_iff l).2 h0)
  rw [calculateStreaks_eq today l hl]
  obtain ⟨d, rest, hu⟩ := List.exists_cons_of_ne_nil hne
  rw [hu] at hlast ⊢
  cases hrev : (d :: rest).reverse with
  | nil => simp at hrev
  | cons last' prevs =>
      have hlast2 : some last' = some last := by
        rw [List.getLast?_eq_head?_reverse, hrev] at hlast
        simpa using hlast
      have hl2 : last' = last := by injection hlast2
      subst hl2
      have ht : today - last' ≤ 1 := by omega
      have hcur : (streaksFromDates today (d :: rest)).currentStreak =
          1 + backRun last' prevs := by
        simp [streaksFromDates, hrev, ht]
      omega

/-- Witness for C9: a single submission dated day 5 while today is day 0
yields a current streak of 1. -/
theorem claim_C9_witness :
    (sortedDays [{ day := 5, timeOfDay := 0 }]).getLast? = some 5 ∧
      1 ≤ (calculateStreaks 0 [{ day := 5, timeOfDay := 0 }]).currentStreak :=
  ⟨by decide, claim_C9 0 _ 5 (by decide) (by decide)⟩

/-! ## C3: the longest streak bounds the current streak

The backward walk from the most recent date counts exactly the final run
of the forward scan; `lastRun` recomputes that final run going forward, so
it can be compared both with the backward walk and with the longest-streak
loop. -/

/-- The length of the final consecutive-day run of `prev :: rest`, scanned
forward: the counter increments on gaps of exactly one day and resets to 1
otherwise; the value at the end of the scan is returned. -/
def lastRun (prev : Int) (run : Nat) : List Int → Nat
  | [] => run
  | d :: rest => if d - prev = 1 then lastRun d (run + 1) rest else lastRun d 1 rest

theorem headI_append_singleton (xs : List Int) (y : Int) (h : xs ≠ []) :
    (xs ++ [y]).headI = xs.headI := by
  cases xs with
  | nil => exact absurd rfl h
  | cons a t => rfl

theorem lastRun_append_singleton :
    ∀ (t : List Int) (prev : Int) (run : Nat) (a : Int),
      lastRun prev run (t ++ [a]) =
        if a - ((prev :: t).reverse.headI) = 1 then lastRun prev run t + 1 else 1 := by
  intro t
  induction t with
  | nil =>
      intro prev run a
      simp only [List.nil_append, lastRun, List.reverse_cons, List.reverse_nil]
      rfl
  | cons c t' ih =>
      intro prev run a
      simp only [List.cons_append, lastRun, List.append_eq]
      rw [ih c (run + 1) a, ih c 1 a]
      have hne : (c :: t').reverse ≠ [] := by simp
      have hh : ((prev :: c :: t').reverse).headI = ((c :: t').reverse).headI := by
        rw [show (prev :: c :: t').reverse = (c :: t').reverse ++ [prev] by simp]
        exact headI_append_singleton _ _ hne
      rw [hh]
      by_cases h1 : c - prev = 1 <;>
        by_cases h2 : a - ((c :: t').reverse.headI) = 1 <;> simp [h1, h2]

theorem backwardWalk_reverse_eq_lastRun :
    ∀ (t : List Int) (d : Int), backwardWalk ((d :: t).reverse) = lastRun d 1 t := by
  intro t
  induction t using List.reverseRecOn with
  | nil => intro d; simp [backwardWalk, lastRun]
  | append_singleton t a ih =>
      intro d
      rw [lastRun_append_singleton t d 1 a]
      have hrw : (d :: (t ++ [a])).reverse = a :: (d :: t).reverse := by simp
      rw [hrw]
      cases hrev : (d :: t).reverse with
      | nil => simp at hrev
      | cons b pr =>
          have hbw : backwardWalk (b :: pr) = lastRun d 1 t := by
            rw [← hrev]; exact ih d
          simp only [backwardWalk, List.headI]
          by_cases hg : a - b = 1 <;> simp [hg, hbw, Nat.add_comm]

theorem lastRun_le_longestAux :
    ∀ (rest : List Int) (prev : Int) (longest run : Nat),
      lastRun prev run rest ≤ longestAux prev longest run rest := by
  intro rest
  induction rest with
  | nil => intro prev longest run; simp [lastRun, longestAux]
  | cons d t ih =>
      intro prev longest run
      simp only [lastRun, longestAux]
      by_cases hg : d - prev = 1 <;> simp only [hg, ite_true, ite_false]
      · exact ih d longest (run + 1)
      · exact ih d (max longest run) 1

/-- C3: for every list of well-formed date strings, the computed
`StreakState` satisfies `longestStreak >= currentStreak`. -/
theorem claim_C3 (today : Int) (l : List DateString) :
    (calculateStreaks today l).currentStreak ≤ (calculateStreaks today l).longestStreak := by
  by_cases h : l = []
  · subst h; simp [calculateStreaks]
  · rw [calculateStreaks_eq today l h]
    rcases hu : sortedDays l with _ | ⟨d, rest⟩
    · simp [streaksFromDates]
    · cases hrev : (d :: rest).reverse with
      | nil => simp at hrev
      | cons last prevs =>
          have hlong : (streaksFromDates today (d :: rest)).longestStreak =
              longestAux d 1 1 rest := rfl
          by_cases ht : today - last ≤ 1
          · have hcur : (streaksFromDates today (d :: rest)).currentStreak =
                1 + backRun last prevs := by
              simp [streaksFromDates, hrev, ht]
            have h1 : backwardWalk (last :: prevs) = lastRun d 1 rest := by
              rw [← hrev]; exact backwardWalk_reverse_eq_lastRun rest d
            have h2 : backwardWalk (last :: prevs) = 1 + backRun last prevs :=
              backwardWalk_cons prevs last
            have h3 : lastRun d 1 rest ≤ longestAux d 1 1 rest :=
              lastRun_le_longestAux rest d 1 1
            rw [hcur, hlong, ← h2, h1]
            exact h3
          · have hcur : (streaksFromDates today (d :: rest)).currentStreak = 0 := by
              simp [streaksFromDates, hrev, ht]
            rw [hcur]
            exact Nat.zero_le _

/-! ## C2: the longest streak -/

/-- The list of run lengths produced by the forward scan of `prev :: rest`,
left to right: the counter increments on gaps of exactly one day; on any
other gap the finished run length is emitted and the counter resets to 1;
the final counter value is the last element. -/
def runLens (prev : Int) (run : Nat) : List Int → List Nat
  | [] => [run]
  | d :: rest =>
      if d - prev = 1 then runLens d (run + 1) rest
      else run :: runLens d 1 rest

theorem longestAux_eq_max_foldr :
    ∀ (rest : List Int) (prev : Int) (longest run : Nat),
      longestAux prev longest run rest =
        max longest ((runLens prev run rest).foldr max 0) := by
  intro rest
  induction rest with
  | nil =>
      intro prev longest run
      simp [longestAux, runLens]
  | cons d t ih =>
      intro prev longest run
      simp only [longestAux, runLens]
      by_cases hg : d - prev = 1 <;> simp only [hg, ite_true, ite_false]
      · exact ih d longest (run + 1)
      · rw [ih d (max longest run) 1, List.foldr_cons, Nat.max_assoc]

theorem foldr_max_runLens_pos :
    ∀ (rest : List Int) (prev : Int) (run : Nat),
      run ≤ (runLens prev run rest).foldr max 0 := by
  intro rest
  induction rest with
  | nil => intro prev run; simp [runLens]
  | cons d t ih =>
      intro prev run
      simp only [runLens]
      by_cases hg : d - prev = 1 <;> simp only [hg, ite_true, ite_false]
      · exact le_trans (Nat.le_succ run) (ih d (run + 1))
      · simp only [List.foldr_cons]
        exact Nat.le_max_left _ _

theorem runBlocks_cons (rest : List Int) (a : Int) :
    ∃ blk blks, runBlocks (a :: rest) = (a :: blk) :: blks := by
  cases h : runBlocks rest with
  | nil => exact ⟨[], [], by simp [runBlocks, h]⟩
  | cons b0 blks =>
      cases b0 with
      | nil => exact ⟨[], blks, by simp [runBlocks, h]⟩
      | cons b blk =>
          by_cases hg : b - a = 1
          · exact ⟨b :: blk, blks, by simp [runBlocks, h, hg]⟩
          · exact ⟨[], (b :: blk) :: blks, by simp [runBlocks, h, hg]⟩

theorem runBlocks_cons_eq (a : Int) (rest : List Int) :
    runBlocks (a :: rest) =
      match runBlocks rest with
      | [] => [[a]]
      | [] :: blks => [[a]] ++ blks
      | (b :: blk) :: blks =>
          if b - a = 1 then (a :: b :: blk) :: blks
          else [a] :: (b :: blk) :: blks := rfl

theorem runLens_eq_runBlocks_lengths :
    ∀ (rest : List Int) (prev : Int) (run : Nat) (blk : List Int) (blks : List (List Int)),
      runBlocks (prev :: rest) = (prev :: blk) :: blks →
      runLens prev (run + 1) rest = (run + blk.length + 1) :: blks.map List.length := by
  intro rest
  induction rest with
  | nil =>
      intro prev run blk blks h
      rw [show runBlocks [prev] = [[prev]] from rfl] at h
      simp only [List.cons.injEq] at h
      obtain ⟨⟨-, hblk⟩, hblks⟩ := h
      subst hblk
      subst hblks
      simp [runLens]
  | cons d t ih =>
      intro prev run blk blks h
      obtain ⟨blk', blks', hdt⟩ := runBlocks_cons t d
      by_cases hg : d - prev = 1
      · have hpdt : runBlocks (prev :: d :: t) = (prev :: d :: blk') :: blks' := by
          rw [runBlocks_cons_eq, hdt]
          simp [hg]
        rw [hpdt] at h
        simp only [List.cons.injEq] at h
        obtain ⟨⟨-, hblk⟩, hblks⟩ := h
        subst hblk
        subst hblks
        simp only [runLens, hg, ite_true]
        rw [ih d (run + 1) blk' blks' hdt]
        simp only [List.length_cons]
        congr 1
        omega
      · have hpdt : runBlocks (prev :: d :: t) = [prev] :: (d :: blk') :: blks' := by
          rw [runBlocks_cons_eq, hdt]
          simp [hg]
        rw [hpdt] at h
        simp only [List.cons.injEq] at h
        obtain ⟨⟨-, hblk⟩, hblks⟩ := h
        subst hblk
        subst hblks
        simp only [runLens, hg, ite_false]
        have hrec := ih d 0 blk' blks' hdt
        simp only [Nat.zero_add] at hrec
        rw [hrec]
        simp

/-- C2: for a non-empty list of date strings, `longestStreak` is the
maximum, over the deduplicated ascending-sorted calendar dates, of the
length of any run of consecutive days, including the final run. -/
theorem claim_C2 (today : Int) (l : List DateString) (h : l ≠ []) :
    (calculateStreaks today l).longestStreak = specLongestStreak (sortedDays l) := by
  rw [calculateStreaks_eq today l h]
  have hne : sortedDays l ≠ [] := fun h0 => h ((sortedDays_eq_nil_iff l).1 h0)
  obtain ⟨d, rest, hu⟩ := List.exists_cons_of_ne_nil hne
  rw [hu]
  have hlong : (streaksFromDates today (d :: rest)).longestStreak =
      longestAux d 1 1 rest := rfl
  rw [hlong]
  obtain ⟨blk, blks, hb⟩ := runBlocks_cons rest d
  have h1 : runLens d 1 rest = (blk.length + 1) :: blks.map List.length := by
    have h2 := runLens_eq_runBlocks_lengths rest d 0 blk blks hb
    simpa using h2
  rw [longestAux_eq_max_foldr, h1, specLongestStreak, hb]
  simp only [List.map_cons, List.length_cons, List.foldr_cons]
  have hle : (1 : Nat) ≤ max (blk.length + 1) ((blks.map List.length).foldr max 0) :=
    le_trans (Nat.succ_le_succ (Nat.zero_le _)) (le_max_left _ _)
  exact Nat.max_eq_right hle

/-- Witness for C2 at the example `[d, d+1, d+2, d+5, d+6]` from the spec:
the longest streak is the maximum run length, 3. -/
theorem claim_C2_witness :
    (calculateStreaks 6 [{ day := 0, timeOfDay := 0 }, { day := 1, timeOfDay := 0 },
        { day := 2, timeOfDay := 0 }, { day := 5, timeOfDay := 0 },
        { day := 6, timeOfDay := 0 }]).longestStreak =
      specLongestStreak (sortedDays [{ day := 0, timeOfDay := 0 }, { day := 1, timeOfDay := 0 },
        { day := 2, timeOfDay := 0 }, { day := 5, timeOfDay := 0 },
        { day := 6, timeOfDay := 0 }]) :=
  claim_C2 6 _ (by decide)

/-! ## C6 and C7: order independence and duplicate collapse -/

/-- C6: permuting the input list does not change the result: the `Set`
deduplication and ascending sort at lines 22–31 normalize the order. -/
theorem claim_C6 (today : Int) (l1 l2 : List DateString) (h : List.Perm l1 l2) :
    calculateStreaks today l1 = calculateStreaks today l2 := by
  have hs : sortedDays l1 = sortedDays l2 :=
    sortedDays_eq_of_mem_iff l1 l2 (fun x => (h.map toDay).mem_iff)
  by_cases h1 : l1 = []
  · subst h1
    have h2 : l2 = [] := h.symm.eq_nil
    subst h2; rfl
  · have h2 : l2 ≠ [] := fun h0 => h1 (h0 ▸ h).eq_nil
    rw [calculateStreaks_eq today l1 h1, calculateStreaks_eq today l2 h2, hs]

/-- Witness for C6: reversing a two-element list gives the same result. -/
theorem claim_C6_witness :
    calculateStreaks 1 [{ day := 0, timeOfDay := 0 }, { day := 1, timeOfDay := 5 }] =
      calculateStreaks 1 [{ day := 1, timeOfDay := 5 }, { day := 0, timeOfDay := 0 }] :=
  claim_C6 1 _ _ (by decide)

/-- C7: duplicate calendar dates collapse to one:
`calculateStreaks [d, d] = calculateStreaks [d]`, and any two inputs that
normalize to the same set of unique calendar days give the same result. -/
theorem claim_C7 (today : Int) :
    (∀ d : DateString, calculateStreaks today [d, d] = calculateStreaks today [d]) ∧
    (∀ l1 l2 : List DateString, (∀ x, x ∈ l1.map toDay ↔ x ∈ l2.map toDay) →
      calculateStreaks today l1 = calculateStreaks today l2) := by
  have gen : ∀ l1 l2 : List DateString, (∀ x, x ∈ l1.map toDay ↔ x ∈ l2.map toDay) →
      calculateStreaks today l1 = calculateStreaks today l2 := by
    intro l1 l2 hmem
    by_cases h1 : l1 = []
    · subst h1
      cases l2 with
      | nil => rfl
      | cons d t =>
          exfalso
          have hd : toDay d ∈ ([] : List DateString).map toDay :=
            (hmem (toDay d)).2 (by simp)
          simp at hd
    · have h2 : l2 ≠ [] := by
        intro h0
        subst h0
        cases l1 with
        | nil => exact h1 rfl
        | cons d t =>
            have hd : toDay d ∈ ([] : List DateString).map toDay :=
              (hmem (toDay d)).1 (by simp)
            simp at hd
      rw [calculateStreaks_eq today l1 h1, calculateStreaks_eq today l2 h2,
        sortedDays_eq_of_mem_iff l1 l2 hmem]
  exact ⟨fun d => gen [d, d] [d] (fun x => by simp), gen⟩

/-- Witness for C7: two submissions on day 0 (at different times of day)
collapse to a single day-0 submission. -/
theorem claim_C7_witness :
    calculateStreaks 0 [{ day := 0, timeOfDay := 1 }, { day := 0, timeOfDay := 2 }] =
      calculateStreaks 0 [{ day := 0, timeOfDay := 1 }] :=
  (claim_C7 0).2 _ _ (fun x => by simp [toDay])

/-! ## The refresh pipeline (C4 and C10)

`Layout.tsx` `fetchData` fetches the submission rows, computes streaks
from their `created_at` timestamps, and conditionally writes the profile
row back.  The `fetchData` of `Dashboard.tsx` instead collects the
user-entered `date` fields of the rows for its has-logged-today check. -/

/-- A row of the `submissions` table (`src/types.ts`): `created_at` is the
record-creation timestamp, `date` the user-entered `yyyy-MM-dd` field
(already a calendar day). -/
structure SubmissionRow where
  created_at : DateString
  date : Int
deriving DecidableEq

/-- The streak fields of a `profiles` row (`current_streak`,
`longest_streak`). -/
structure ProfileRow where
  current_streak : Int
  longest_streak : Int
deriving DecidableEq

/-- Lines 140–141 of `Layout.tsx`: the date list passed to `calculateStreaks`
is the `created_at` of each fetched submission. -/
def layoutStreaks (today : Int) (submissionData : List SubmissionRow) : StreakState :=
  calculateStreaks today (submissionData.map (fun s => s.created_at))

/-- Lines 139–159 of `Layout.tsx`: compute streaks from the fetched rows and
update the profile record only if the stored pair differs from the
computed pair.  Returns the profile visible afterwards and whether an
update was issued; the write itself is modelled as succeeding (store
failures are outside the core, spec section 7). -/
def fetchDataStreakStep (today : Int) (profileData : ProfileRow)
    (submissionData : List SubmissionRow) : ProfileRow × Bool :=
  let s := layoutStreaks today submissionData
  if profileData.current_streak ≠ (s.currentStreak : Int) ∨
      profileData.longest_streak ≠ (s.longestStreak : Int) then
    ({ current_streak := (s.currentStreak : Int), longest_streak := (s.longestStreak : Int) }, true)
  else (profileData, false)

/-- In `Dashboard.tsx` `fetchData`: `dates = new Set(submissionData.map(s =>
s.date))` and `hasLoggedToday = dates.has(todayUTC)`. -/
def hasLoggedToday (todayUTC : Int) (submissionData : List SubmissionRow) : Bool :=
  decide (todayUTC ∈ submissionData.map (fun s => s.date))

/-- C4: the refresh step overwrites the streak fields of the profile iff the
stored pair differs from the freshly computed pair; when they are equal no
update is issued and the stored record is unchanged; when they differ the
visible record holds the computed pair. -/
theorem claim_C4 (today : Int) (p : ProfileRow) (subs : List SubmissionRow) :
    ((fetchDataStreakStep today p subs).2 = true ↔
      ¬(p.current_streak = ((layoutStreaks today subs).currentStreak : Int) ∧
        p.longest_streak = ((layoutStreaks today subs).longestStreak : Int))) ∧
    ((fetchDataStreakStep today p subs).2 = false →
      (fetchDataStreakStep today p subs).1 = p) ∧
    ((fetchDataStreakStep today p subs).2 = true →
      (fetchDataStreakStep today p subs).1 =
        { current_streak := ((layoutStreaks today subs).currentStreak : Int),
          longest_streak := ((layoutStreaks today subs).longestStreak : Int) }) := by
  by_cases h1 : p.current_streak = ((layoutStreaks today subs).currentStreak : Int) <;>
    by_cases h2 : p.longest_streak = ((layoutStreaks today subs).longestStreak : Int) <;>
      simp [fetchDataStreakStep, h1, h2]

/-- Witness for C4: a profile storing `{0, 0}` with no submissions is left
alone (no update issued, record unchanged). -/
theorem claim_C4_witness :
    (fetchDataStreakStep 0 { current_streak := 0, longest_streak := 0 } []).2 = false ∧
      (fetchDataStreakStep 0 { current_streak := 0, longest_streak := 0 } []).1 =
        { current_streak := 0, longest_streak := 0 } :=
  ⟨by decide, (claim_C4 0 { current_streak := 0, longest_streak := 0 } []).2.1 (by decide)⟩

/-- C10: the streaks of the refresh pipeline are computed from each
`created_at` of each submission only (changing `date` fields never changes
them), while the has-logged-today check reads the `date` field: a
submission created on day 0 whose `date` field says day `-1` yields a
current streak of 1 on day 0 even though `hasLoggedToday` is false on day
0 (and true on day `-1`). -/
theorem claim_C10 :
    (∀ (today : Int) (subs1 subs2 : List SubmissionRow),
        subs1.map (fun s => s.created_at) = subs2.map (fun s => s.created_at) →
        layoutStreaks today subs1 = layoutStreaks today subs2) ∧
    (layoutStreaks 0 [{ created_at := { day := 0, timeOfDay := 1 }, date := -1 }]).currentStreak = 1 ∧
    hasLoggedToday 0 [{ created_at := { day := 0, timeOfDay := 1 }, date := -1 }] = false ∧
    hasLoggedToday (-1) [{ created_at := { day := 0, timeOfDay := 1 }, date := -1 }] = true := by
  refine ⟨?_, by decide, by decide, by decide⟩
  intro today subs1 subs2 h
  rw [layoutStreaks, layoutStreaks, h]

/-- Witness for C10: two rows with the same `created_at` but different
`date` fields give the same streaks. -/
theorem claim_C10_witness :
    layoutStreaks 3 [{ created_at := { day := 2, timeOfDay := 5 }, date := 0 }] =
      layoutStreaks 3 [{ created_at := { day := 2, timeOfDay := 5 }, date := 9 }] :=
  claim_C10.1 3 _ _ (by decide)
